import Mathlib

/-!
Verification development for the spoticamper reconciliation script
(src/spoticamper.py).

The script keeps a persisted state document with a mapping `albums` from an
album key to an album record and a reverse index `bandcamp_url_to_album_key`
from a marketplace URL to an album key.  Python dicts are modelled as
insertion-ordered association lists; dict assignment is `dictInsert` (update
in place when the key exists, append otherwise) and dict lookup is `lookup`.
Code that can raise (KeyError, IndexError, ZeroDivisionError) is modelled
with `Option`: `none` means the run aborts with the exception and no state is
persisted (the script writes `state.json` only at the very end).
Network and HTML I/O are black boxes: the Marketplace Resolver takes an
oracle `String → String → String` standing for `search_bandcamp_album_url`
applied to an (artist, album-name) query, the purchase page is a list of
link strings, and a Spotify playlist is a list of `Track` values.
-/

namespace Spoticamper

/-- Album record as built by `pull_spotify_playlist` in src/spoticamper.py,
lines 112-122; fields in source order. -/
structure Album where
  key : String
  id : String
  name : String
  artists : List String
  purchased : Bool
  bandcamp_search_term : String
  bandcamp_url_found : Bool
  bandcamp_url_searched : Bool
  bandcamp_url : String
deriving DecidableEq

/-- One playlist entry as consumed by `pull_spotify_playlist`: the album id
and name of `track["track"]["album"]` and the artist names collected from
`track["track"]["artists"]` (lines 103-110). -/
structure Track where
  artists : List String
  album_id : String
  album_name : String
deriving DecidableEq

/-- The persisted state document (`load_state`, line 65): the `albums` dict
and the reverse index `bandcamp_url_to_album_key`, both modelled as
insertion-ordered association lists. -/
structure State where
  albums : List (String × Album)
  bandcamp_url_to_album_key : List (String × String)
deriving DecidableEq

/-- Python dict lookup `d[k]` / membership `k in d`: first (and in a real
dict, only) binding of the key. -/
def lookup {α : Type} (k : String) : List (String × α) → Option α
  | [] => none
  | (k', v) :: rest => if k = k' then some v else lookup k rest

/-- Python dict assignment `d[k] = v`: overwrite in place if the key is
present, append otherwise. -/
def dictInsert {α : Type} (k : String) (v : α) : List (String × α) → List (String × α)
  | [] => [(k, v)]
  | (k', v') :: rest => if k = k' then (k, v) :: rest else (k', v') :: dictInsert k v rest

/-- The fresh document returned by `load_state` when `state.json` is absent
(line 65). -/
def initial_state : State := { albums := [], bandcamp_url_to_album_key := [] }

/-! ### URL parsing (`urllib.parse.urlparse` as used on line 25) -/

/-- Characters allowed in a URL scheme by `urllib.parse` (letters, digits,
plus, minus, dot). -/
def isSchemeChar (c : Char) : Bool :=
  c.isAlpha || c.isDigit || c == '+' || c == '-' || c == '.'

/-- Split a character list at the first occurrence of `c`: `some (before,
after)` with the occurrence removed, `none` when `c` is absent. -/
def splitAtFirst (c : Char) : List Char → Option (List Char × List Char)
  | [] => none
  | x :: xs =>
    if x = c then some ([], xs)
    else
      match splitAtFirst c xs with
      | none => none
      | some (a, b) => some (x :: a, b)

/-- Python `s.split(c, 1)` guarded by `c in s`: split at the first
occurrence when there is one, otherwise keep the whole list with an empty
second component. -/
def breakAt (c : Char) (l : List Char) : List Char × List Char :=
  match splitAtFirst c l with
  | none => (l, [])
  | some (a, b) => (a, b)

/-- Scheme extraction of `urllib.parse.urlsplit`: the text before the first
colon is the scheme (lowercased) when it is nonempty, starts with a letter
and uses only scheme characters; otherwise no scheme is split off. -/
def scheme_split (l : List Char) : List Char × List Char :=
  match splitAtFirst ':' l with
  | none => ([], l)
  | some (before, after) =>
    if (!before.isEmpty) && (before.headD ' ').isAlpha && before.all isSchemeChar
    then (before.map Char.toLower, after)
    else ([], l)

/-- A character ending the network-location part of a URL. -/
def isNetlocDelim (c : Char) : Bool :=
  c == '/' || c == '?' || c == '#'

/-- Netloc extraction of `urllib.parse.urlsplit`: when the remainder starts
with two slashes, the netloc runs up to the next slash, question mark or
hash, which stays in the remainder. -/
def netloc_split (l : List Char) : List Char × List Char :=
  match l with
  | a :: b :: r =>
    if a = '/' ∧ b = '/' then
      (r.takeWhile (fun c => !isNetlocDelim c), r.dropWhile (fun c => !isNetlocDelim c))
    else ([], a :: b :: r)
  | _ => ([], l)

/-- URL components produced by `urllib.parse.urlparse`. -/
structure ParsedUrl where
  scheme : String
  netloc : String
  path : String
  query : String
  fragment : String
deriving DecidableEq

/-- Model of `urllib.parse.urlparse` component splitting as used by
`search_bandcamp_album_url` (line 25): scheme, then netloc after a double
slash, then the fragment after the first hash, then the query after the
first question mark; what is left is the path.  (Bracket validation of the
netloc and parameter splitting are not used by the script and are
omitted.) -/
def urlparse (url : String) : ParsedUrl :=
  let s := scheme_split url.data
  let n := netloc_split s.2
  let f := breakAt '#' n.2
  let pq := breakAt '?' f.1
  { scheme := String.mk s.1
    netloc := String.mk n.1
    path := String.mk pq.1
    query := String.mk pq.2
    fragment := String.mk f.2 }

/-- `search_bandcamp_album_url` (lines 18-28) after the HTML black box: the
input is the list of target links of the search results (the first anchor of
each `.searchresult`).  With no results the empty string is returned;
otherwise the first link is parsed and the stored URL is the literal string
`https://` followed by its netloc and path (query and fragment dropped, the
scheme replaced by the literal `https`). -/
def search_bandcamp_album_url (search_result_links : List String) : String :=
  match search_result_links with
  | [] => ""
  | href :: _ =>
    let link := urlparse href
    "https://" ++ link.netloc ++ link.path

/-- Modelled from the spec: the normalization the spec describes for the
stored URL, namely strip any query string and keep scheme, host and path of
the first result link.  Stated only to be compared with
`search_bandcamp_album_url`, which the source derives from the link. -/
def claimed_normalized_url (href : String) : String :=
  let link := urlparse href
  link.scheme ++ "://" ++ link.netloc ++ link.path

/-! ### Environment configuration (`get_spotify_auth_token`, `get_bandcamp_purchases`) -/

/-- Python `os.environ[name]`: the value when the variable is set, otherwise
a `KeyError` carrying the variable name. -/
def getenv (env : String → Option String) (name : String) : Except String String :=
  match env name with
  | some v => Except.ok v
  | none => Except.error name

/-- The authentication request `get_spotify_auth_token` (lines 30-36) is
about to send: the credential pair read from the environment.  (The base64
encoding and the HTTP exchange are black boxes; what matters here is that
the request value exists only once both variables were read.) -/
structure SpotifyAuthRequest where
  credentials : String
deriving DecidableEq

/-- Credential reading of `get_spotify_auth_token` (line 31):
`SPOTIFY_APP_ID` then `SPOTIFY_APP_SECRET` are read from the environment
before the token request is formed; a missing variable raises `KeyError`
with that name before any request exists. -/
def get_spotify_auth_token_request (env : String → Option String) :
    Except String SpotifyAuthRequest :=
  match getenv env "SPOTIFY_APP_ID" with
  | Except.error e => Except.error e
  | Except.ok appId =>
    match getenv env "SPOTIFY_APP_SECRET" with
    | Except.error e => Except.error e
    | Except.ok secret => Except.ok { credentials := appId ++ ":" ++ secret }

/-- The purchase-page request `get_bandcamp_purchases` (lines 45-49) is
about to send: profile URL and identity cookie. -/
structure BandcampPurchasesRequest where
  url : String
  cookie : String
deriving DecidableEq

/-- Credential reading of `get_bandcamp_purchases` (lines 46-49):
`BANDCAMP_USERNAME` (in the URL) then `BANDCAMP_TOKEN` (in the cookie
header) are read before the request is issued; a missing variable raises
`KeyError` with that name before any request exists. -/
def get_bandcamp_purchases_request (env : String → Option String) :
    Except String BandcampPurchasesRequest :=
  match getenv env "BANDCAMP_USERNAME" with
  | Except.error e => Except.error e
  | Except.ok user =>
    match getenv env "BANDCAMP_TOKEN" with
    | Except.error e => Except.error e
    | Except.ok token =>
      Except.ok { url := "https://bandcamp.com/" ++ user, cookie := "identity=" ++ token }

/-! ### Purchase Reconciler (`bandcamp_refresh_purchased`, lines 71-82) -/

/-- The update a reconciled album receives: only the `purchased` flag is set
(line 78). -/
def purchasedUpd (a : Album) : Album := { a with purchased := true }

/-- Loop of `bandcamp_refresh_purchased` (lines 75-79) over the purchase
links, threading the state and the `new_purchase_count` accumulator.  A link
absent from the reverse index is skipped; a link whose index entry names a
key missing from `albums` raises `KeyError` (modelled `none`); an already
purchased album is left alone; otherwise `purchased` is set and the counter
incremented. -/
def bandcamp_refresh_purchased_aux (purchases : List String) (state : State) (count : Nat) :
    Option (State × Nat) :=
  match purchases with
  | [] => some (state, count)
  | url :: rest =>
    match lookup url state.bandcamp_url_to_album_key with
    | none => bandcamp_refresh_purchased_aux rest state count
    | some key =>
      match lookup key state.albums with
      | none => none
      | some album =>
        if album.purchased then bandcamp_refresh_purchased_aux rest state count
        else
          bandcamp_refresh_purchased_aux rest
            { state with albums := dictInsert key (purchasedUpd album) state.albums }
            (count + 1)

/-- `bandcamp_refresh_purchased` (lines 71-82) with the purchase page
already fetched into `purchases`: returns the updated state and the
reported count of albums newly registered as purchased. -/
def bandcamp_refresh_purchased (purchases : List String) (state : State) :
    Option (State × Nat) :=
  bandcamp_refresh_purchased_aux purchases state 0

/-! ### Playlist Importer (`pull_spotify_playlist`, lines 103-123) -/

/-- The record the importer creates for a track `t` whose first artist is
`a0` (lines 112-122). -/
def new_album_record (t : Track) (a0 : String) : Album :=
  { key := t.album_name ++ ":" ++ t.album_id
    id := t.album_id
    name := t.album_name
    artists := t.artists
    purchased := false
    bandcamp_search_term := a0 ++ " " ++ t.album_name
    bandcamp_url_found := false
    bandcamp_url_searched := false
    bandcamp_url := "" }

/-- Registration of one playlist track (lines 103-123): the album key is
`name ++ ":" ++ id`; a key already in `albums` is skipped; otherwise a fresh
record is inserted with `bandcamp_search_term` built from the first artist,
which raises `IndexError` (modelled `none`) when the artist list is empty,
before anything is inserted. -/
def register_track (state : State) (count : Nat) (t : Track) : Option (State × Nat) :=
  let album_key := t.album_name ++ ":" ++ t.album_id
  match lookup album_key state.albums with
  | some _ => some (state, count)
  | none =>
    match t.artists with
    | [] => none
    | a0 :: _ =>
      some
        ({ state with
            albums := dictInsert album_key (new_album_record t a0) state.albums },
          count + 1)

/-- Import loop of `pull_spotify_playlist` over the playlist tracks,
threading the `registered_album_count` accumulator. -/
def register_playlist_aux : List Track → State → Nat → Option (State × Nat)
  | [], state, count => some (state, count)
  | t :: ts, state, count =>
    match register_track state count t with
    | none => none
    | some (state', count') => register_playlist_aux ts state' count'

/-- The import phase of `pull_spotify_playlist` (lines 102-123): register
every track of the playlist, reporting how many albums were new. -/
def register_playlist (playlist : List Track) (state : State) : Option (State × Nat) :=
  register_playlist_aux playlist state 0

/-! ### Marketplace Resolver (resolver loop of `pull_spotify_playlist`,
lines 135-147) -/

/-- The transformation one album record undergoes in the resolver loop,
as a function of the record and the search oracle alone: an already searched
album is untouched; otherwise the oracle is queried with the first artist
and the album name, `bandcamp_url_searched` is set, and on a nonempty result
`bandcamp_url_found` and `bandcamp_url` are set too. -/
def resolveEntry (oracle : String → String → String) (a : Album) : Album :=
  if a.bandcamp_url_searched then a
  else if oracle (a.artists.headD "") a.name = "" then
    { a with bandcamp_url_searched := true }
  else
    { a with
        bandcamp_url_searched := true
        bandcamp_url_found := true
        bandcamp_url := oracle (a.artists.headD "") a.name }

/-- The reverse-index write of the resolver (line 143): on a nonempty
search result `state["bandcamp_url_to_album_key"][bandcamp_url] =
album["key"]`, on an empty one the index is untouched. -/
def resolveIndexUpd (oracle : String → String → String) (a : Album)
    (index : List (String × String)) : List (String × String) :=
  let url := oracle (a.artists.headD "") a.name
  if url = "" then index else dictInsert url a.key index

/-- Resolver loop (lines 135-147) over the album entries in insertion
order, threading the reverse index and collecting the dict keys of the
albums actually queried.  An unsearched album with an empty artist list
raises `IndexError` on `album["artists"][0]` (modelled `none`, before the
query); otherwise its record becomes `resolveEntry oracle` of itself and
the index receives `resolveIndexUpd`.  The final
`state["albums"][album["key"]] = album` writes the record back under its
own `key` field, which is the dict key for every record the program
creates; it is modelled as updating the entry in place. -/
def resolve_pass_aux (oracle : String → String → String) :
    List (String × Album) → List (String × String) →
    Option (List (String × Album) × List (String × String) × List String)
  | [], index => some ([], index, [])
  | (k, a) :: rest, index =>
    if a.bandcamp_url_searched then
      match resolve_pass_aux oracle rest index with
      | none => none
      | some (rest', index', queried) => some ((k, a) :: rest', index', queried)
    else
      match a.artists with
      | [] => none
      | _ :: _ =>
        match resolve_pass_aux oracle rest (resolveIndexUpd oracle a index) with
        | none => none
        | some (rest', index', queried) =>
          some ((k, resolveEntry oracle a) :: rest', index', k :: queried)

/-- The resolver phase of `pull_spotify_playlist` (lines 129-147) on a whole
state: returns the updated state and the dict keys of the albums that were
queried. -/
def resolve_pass (oracle : String → String → String) (state : State) :
    Option (State × List String) :=
  match resolve_pass_aux oracle state.albums state.bandcamp_url_to_album_key with
  | none => none
  | some (albums', index', queried) =>
    some ({ albums := albums', bandcamp_url_to_album_key := index' }, queried)

/-- `pull_spotify_playlist` (lines 93-152): import the playlist, resolve the
unsearched albums against the search oracle, then reconcile against the
purchase list; any exception aborts the run before the state is persisted. -/
def pull_spotify_playlist (oracle : String → String → String) (playlist : List Track)
    (purchases : List String) (state : State) : Option State :=
  match register_playlist playlist state with
  | none => none
  | some (s1, _) =>
    match resolve_pass oracle s1 with
    | none => none
    | some (s2, _) =>
      match bandcamp_refresh_purchased purchases s2 with
      | none => none
      | some (s3, _) => some s3

/-! ### Reporting (`print_stats`, lines 159-179) -/

/-- The figures `print_stats` prints, with the two percentages as exact
rationals in place of Python floats. -/
structure StatsReport where
  album_count : Nat
  purchased_count : Nat
  url_found_count : Nat
  url_searched_count : Nat
  url_not_found_count : Nat
  pct_purchased : ℚ
  pct_not_found : ℚ
deriving DecidableEq

/-- `print_stats` (lines 159-179): counts over the album records, then the
two percentage lines, each of which divides by `album_count`.  With zero
albums the division raises `ZeroDivisionError`, modelled `none`. -/
def print_stats (state : State) : Option StatsReport :=
  let album_count := state.albums.length
  let purchased_count := state.albums.countP (fun p => p.2.purchased)
  let url_found_count := state.albums.countP (fun p => p.2.bandcamp_url_found)
  let url_searched_count := state.albums.countP (fun p => p.2.bandcamp_url_searched)
  let url_not_found_count := album_count - url_found_count
  if album_count = 0 then none
  else
    some
      { album_count := album_count
        purchased_count := purchased_count
        url_found_count := url_found_count
        url_searched_count := url_searched_count
        url_not_found_count := url_not_found_count
        pct_purchased := ((purchased_count : ℚ) / (album_count : ℚ)) * 100
        pct_not_found := ((url_not_found_count : ℚ) / (album_count : ℚ)) * 100 }

/-! ### Reachable states and invariants -/

/-- States the script can reach from a fresh document through its three
state-changing phases: importing a playlist, a resolver pass, and a
purchase reconciliation (a `pull_spotify_playlist` run is the composition
of the three). -/
inductive Reachable : State → Prop
  | init : Reachable initial_state
  | importStep (s s' : State) (playlist : List Track) (n : Nat) :
      Reachable s → register_playlist playlist s = some (s', n) → Reachable s'
  | resolveStep (s s' : State) (oracle : String → String → String) (queried : List String) :
      Reachable s → resolve_pass oracle s = some (s', queried) → Reachable s'
  | refreshStep (s s' : State) (purchases : List String) (n : Nat) :
      Reachable s → bandcamp_refresh_purchased purchases s = some (s', n) → Reachable s'

/-- The album dict has no duplicate keys (true of every Python dict). -/
def NodupKeys (s : State) : Prop := (s.albums.map Prod.fst).Nodup

/-- Every album record is stored under its own `key` field. -/
def KeyInv (s : State) : Prop :=
  ∀ k a, lookup k s.albums = some a → a.key = k

/-- Strengthened reverse-index consistency: every index entry points at an
existing album whose `bandcamp_url` is the indexed URL and which has
already been searched. -/
def RevInv (s : State) : Prop :=
  ∀ url key, lookup url s.bandcamp_url_to_album_key = some key →
    ∃ a, lookup key s.albums = some a ∧ a.bandcamp_url = url ∧ a.bandcamp_url_searched = true

/-- An album never searched was neither found nor purchased. -/
def FlagInv (s : State) : Prop :=
  ∀ k a, lookup k s.albums = some a → a.bandcamp_url_searched = false →
    a.bandcamp_url_found = false ∧ a.purchased = false

/-- The inductive invariant of the state machine. -/
def Inv (s : State) : Prop := NodupKeys s ∧ KeyInv s ∧ RevInv s ∧ FlagInv s

/-! ### Concrete example data (the scenario of the spec: album "X", id "1",
artist "A", and a resolver hit on the marketplace) -/

/-- Example playlist track: album "X", id "1", artist "A". -/
def exTrack : Track := { artists := ["A"], album_id := "1", album_name := "X" }

/-- Example playlist track carrying no artist at all. -/
def exTrackNoArtist : Track := { artists := [], album_id := "1", album_name := "X" }

/-- The record the importer creates for `exTrack`. -/
def exAlbumNew : Album :=
  { key := "X:1"
    id := "1"
    name := "X"
    artists := ["A"]
    purchased := false
    bandcamp_search_term := "A X"
    bandcamp_url_found := false
    bandcamp_url_searched := false
    bandcamp_url := "" }

/-- State after importing `exTrack` into a fresh document. -/
def exState1 : State :=
  { albums := [("X:1", exAlbumNew)], bandcamp_url_to_album_key := [] }

/-- Example marketplace listing URL. -/
def exUrl : String := "https://a.bandcamp.com/album/x"

/-- Search oracle that always finds `exUrl`. -/
def exOracle : String → String → String := fun _ _ => exUrl

/-- Search oracle that never finds anything. -/
def exOracleEmpty : String → String → String := fun _ _ => ""

/-- The record after the resolver finds `exUrl` for `exAlbumNew`. -/
def exAlbumResolved : Album :=
  { exAlbumNew with
      bandcamp_url_searched := true
      bandcamp_url_found := true
      bandcamp_url := exUrl }

/-- State after the resolver pass on `exState1` with oracle `exOracle`. -/
def exState2 : State :=
  { albums := [("X:1", exAlbumResolved)], bandcamp_url_to_album_key := [(exUrl, "X:1")] }

/-- The record after the reconciler marks `exAlbumResolved` purchased. -/
def exAlbumPurchased : Album := { exAlbumResolved with purchased := true }

/-- State after reconciling `exState2` against a purchase list containing
`exUrl`. -/
def exState3 : State :=
  { albums := [("X:1", exAlbumPurchased)], bandcamp_url_to_album_key := [(exUrl, "X:1")] }

/-! ## Association-list lemmas -/

theorem lookup_eq_none_iff {α : Type} (k : String) (l : List (String × α)) :
    lookup k l = none ↔ k ∉ l.map Prod.fst := by
  induction l with
  | nil => simp [lookup]
  | cons p rest ih =>
    obtain ⟨k', v⟩ := p
    by_cases hk : k = k'
    · subst hk; simp [lookup]
    · simp [lookup, hk, ih]

theorem lookup_isSome_iff {α : Type} (k : String) (l : List (String × α)) :
    (lookup k l).isSome ↔ k ∈ l.map Prod.fst := by
  rw [Option.isSome_iff_ne_none, ne_eq, lookup_eq_none_iff, not_not]

theorem lookup_dictInsert_self {α : Type} (k : String) (v : α) (l : List (String × α)) :
    lookup k (dictInsert k v l) = some v := by
  induction l with
  | nil => simp [dictInsert, lookup]
  | cons p rest ih =>
    obtain ⟨k', v'⟩ := p
    by_cases hk : k = k' <;> simp [dictInsert, lookup, hk, ih]

theorem lookup_dictInsert_ne {α : Type} {k k' : String} (hne : k ≠ k') (v : α)
    (l : List (String × α)) : lookup k (dictInsert k' v l) = lookup k l := by
  induction l with
  | nil => simp [dictInsert, lookup, hne]
  | cons p rest ih =>
    obtain ⟨k'', v''⟩ := p
    by_cases hk : k' = k''
    · subst hk; simp [dictInsert, lookup, hne, ih]
    · by_cases hkk : k = k'' <;> simp [dictInsert, lookup, hk, hkk, ih]

theorem map_fst_dictInsert_mem {α : Type} {k : String} (v : α) {l : List (String × α)}
    (h : k ∈ l.map Prod.fst) : (dictInsert k v l).map Prod.fst = l.map Prod.fst := by
  induction l with
  | nil => simp at h
  | cons p rest ih =>
    obtain ⟨k', v'⟩ := p
    by_cases hk : k = k'
    · subst hk; simp [dictInsert]
    · have hmem : k ∈ rest.map Prod.fst := by
        simp only [List.map_cons, List.mem_cons] at h
        exact h.resolve_left hk
      simp [dictInsert, hk, ih hmem]

theorem map_fst_dictInsert_not_mem {α : Type} {k : String} (v : α) {l : List (String × α)}
    (h : k ∉ l.map Prod.fst) :
    (dictInsert k v l).map Prod.fst = l.map Prod.fst ++ [k] := by
  induction l with
  | nil => simp [dictInsert]
  | cons p rest ih =>
    obtain ⟨k', v'⟩ := p
    simp only [List.map_cons, List.mem_cons, not_or] at h
    simp [dictInsert, h.1, ih h.2]

theorem nodup_map_fst_dictInsert {α : Type} (k : String) (v : α) {l : List (String × α)}
    (h : (l.map Prod.fst).Nodup) : ((dictInsert k v l).map Prod.fst).Nodup := by
  by_cases hm : k ∈ l.map Prod.fst
  · rw [map_fst_dictInsert_mem v hm]; exact h
  · rw [map_fst_dictInsert_not_mem v hm]
    simp [List.nodup_append, h, List.disjoint_singleton, hm]

theorem lookup_map {α β : Type} (f : α → β) (k : String) (l : List (String × α)) :
    lookup k (l.map (fun p => (p.1, f p.2))) = (lookup k l).map f := by
  induction l with
  | nil => simp [lookup]
  | cons p rest ih =>
    obtain ⟨k', v⟩ := p
    by_cases hk : k = k' <;> simp [lookup, hk, ih]

theorem mem_of_lookup_eq_some {α : Type} {k : String} {a : α} {l : List (String × α)}
    (h : lookup k l = some a) : (k, a) ∈ l := by
  induction l with
  | nil => simp [lookup] at h
  | cons p rest ih =>
    obtain ⟨k', v⟩ := p
    by_cases hk : k = k'
    · subst hk
      have hva : v = a := by simpa [lookup] using h
      subst hva
      exact List.mem_cons_self _ _
    · simp only [lookup, if_neg hk] at h
      exact List.mem_cons_of_mem _ (ih h)

theorem lookup_eq_some_of_mem_nodup {α : Type} {l : List (String × α)}
    (hnd : (l.map Prod.fst).Nodup) {k : String} {a : α} (h : (k, a) ∈ l) :
    lookup k l = some a := by
  induction l with
  | nil => simp at h
  | cons p rest ih =>
    obtain ⟨k', v⟩ := p
    simp only [List.map_cons, List.nodup_cons] at hnd
    rcases List.mem_cons.mp h with heq | hmem
    · injection heq with h1 h2
      subst h1; subst h2
      simp [lookup]
    · have hk : k ≠ k' := by
        rintro rfl
        exact hnd.1 (List.mem_map.mpr ⟨(k, a), hmem, rfl⟩)
      simp [lookup, hk, ih hnd.2 hmem]

/-! ## Purchase Reconciler lemmas -/

theorem refresh_aux_frame (p : List String) :
    ∀ (s : State) (c : Nat) (s' : State) (n : Nat),
    bandcamp_refresh_purchased_aux p s c = some (s', n) →
    s'.bandcamp_url_to_album_key = s.bandcamp_url_to_album_key ∧
    s'.albums.map Prod.fst = s.albums.map Prod.fst ∧
    ∀ k, lookup k s'.albums = lookup k s.albums ∨
      ∃ a, lookup k s.albums = some a ∧ a.purchased = false ∧
        lookup k s'.albums = some (purchasedUpd a) ∧
        ∃ url, lookup url s.bandcamp_url_to_album_key = some k := by
  induction p with
  | nil =>
    intro s c s' n h
    simp only [bandcamp_refresh_purchased_aux, Option.some.injEq, Prod.mk.injEq] at h
    obtain ⟨rfl, rfl⟩ := h
    exact ⟨rfl, rfl, fun k => Or.inl rfl⟩
  | cons url rest ih =>
    intro s c s' n h
    simp only [bandcamp_refresh_purchased_aux] at h
    cases hidx : lookup url s.bandcamp_url_to_album_key with
    | none =>
      simp only [hidx] at h
      exact ih s c s' n h
    | some key =>
      simp only [hidx] at h
      cases halb : lookup key s.albums with
      | none => simp only [halb] at h; cases h
      | some album =>
        simp only [halb] at h
        cases hp : album.purchased with
        | true =>
          simp only [hp, if_true] at h
          exact ih s c s' n h
        | false =>
          simp only [hp, Bool.false_eq_true, if_false] at h
          set s2 : State :=
            { s with albums := dictInsert key (purchasedUpd album) s.albums } with hs2
          obtain ⟨hidx', hkeys', hlook'⟩ := ih s2 (c + 1) s' n h
          have hidx2 : s2.bandcamp_url_to_album_key = s.bandcamp_url_to_album_key := rfl
          have hkmem : key ∈ s.albums.map Prod.fst := by
            have hsome : (lookup key s.albums).isSome := by rw [halb]; rfl
            exact (lookup_isSome_iff key s.albums).mp hsome
          have hkeys2 : s2.albums.map Prod.fst = s.albums.map Prod.fst :=
            map_fst_dictInsert_mem _ hkmem
          refine ⟨hidx'.trans hidx2, hkeys'.trans hkeys2, fun k => ?_⟩
          rcases hlook' k with hcase | ⟨a2, ha2, ha2p, ha2', url2, hurl2⟩
          · by_cases hkk : k = key
            · subst hkk
              refine Or.inr ⟨album, halb, hp, ?_, url, hidx⟩
              rw [hcase, hs2]
              exact lookup_dictInsert_self k (purchasedUpd album) s.albums
            · refine Or.inl ?_
              rw [hcase, hs2]
              exact lookup_dictInsert_ne hkk (purchasedUpd album) s.albums
          · by_cases hkk : k = key
            · subst hkk
              rw [hs2] at ha2
              rw [lookup_dictInsert_self k (purchasedUpd album) s.albums] at ha2
              cases ha2
              cases ha2p
            · rw [hs2, lookup_dictInsert_ne hkk (purchasedUpd album) s.albums] at ha2
              exact Or.inr ⟨a2, ha2, ha2p, ha2', url2, hidx2 ▸ hurl2⟩

theorem refresh_aux_mono {p : List String} {s : State} {c : Nat} {s' : State} {n : Nat}
    (h : bandcamp_refresh_purchased_aux p s c = some (s', n)) {k : String} {a : Album}
    (hk : lookup k s.albums = some a) (hpu : a.purchased = true) :
    lookup k s'.albums = some a := by
  rcases (refresh_aux_frame p s c s' n h).2.2 k with hcase | ⟨a0, ha0, ha0p, _, _⟩
  · rw [hcase, hk]
  · rw [hk] at ha0
    injection ha0 with ha0
    rw [← ha0, hpu] at ha0p
    cases ha0p

theorem refresh_aux_all_purchased (p : List String) :
    ∀ (s : State) (c : Nat) (s' : State) (n : Nat),
    bandcamp_refresh_purchased_aux p s c = some (s', n) →
    ∀ url ∈ p, ∀ key, lookup url s'.bandcamp_url_to_album_key = some key →
      ∃ a, lookup key s'.albums = some a ∧ a.purchased = true := by
  induction p with
  | nil => intro s c s' n _ url hmem; cases hmem
  | cons url0 rest ih =>
    intro s c s' n h url hmem key hkey
    simp only [bandcamp_refresh_purchased_aux] at h
    cases hidx : lookup url0 s.bandcamp_url_to_album_key with
    | none =>
      simp only [hidx] at h
      rcases List.mem_cons.mp hmem with rfl | hmem'
      · rw [(refresh_aux_frame rest s c s' n h).1, hidx] at hkey
        cases hkey
      · exact ih s c s' n h url hmem' key hkey
    | some key0 =>
      simp only [hidx] at h
      cases halb : lookup key0 s.albums with
      | none => simp only [halb] at h; cases h
      | some album =>
        simp only [halb] at h
        cases hp : album.purchased with
        | true =>
          simp only [hp, if_true] at h
          rcases List.mem_cons.mp hmem with rfl | hmem'
          · rw [(refresh_aux_frame rest s c s' n h).1, hidx] at hkey
            injection hkey with hkey
            subst hkey
            exact ⟨album, refresh_aux_mono h halb hp, hp⟩
          · exact ih s c s' n h url hmem' key hkey
        | false =>
          simp only [hp, Bool.false_eq_true, if_false] at h
          set s2 : State :=
            { s with albums := dictInsert key0 (purchasedUpd album) s.albums } with hs2
          rcases List.mem_cons.mp hmem with rfl | hmem'
          · have hidx2 : s'.bandcamp_url_to_album_key = s.bandcamp_url_to_album_key :=
              (refresh_aux_frame rest s2 (c + 1) s' n h).1
            rw [hidx2, hidx] at hkey
            injection hkey with hkey
            subst hkey
            have hk2 : lookup key0 s2.albums = some (purchasedUpd album) := by
              rw [hs2]
              exact lookup_dictInsert_self key0 (purchasedUpd album) s.albums
            exact ⟨purchasedUpd album, refresh_aux_mono h hk2 rfl, rfl⟩
          · exact ih s2 (c + 1) s' n h url hmem' key hkey

theorem refresh_aux_noop (p : List String) :
    ∀ (s : State) (c : Nat),
    (∀ url ∈ p, ∀ key, lookup url s.bandcamp_url_to_album_key = some key →
      ∃ a, lookup key s.albums = some a ∧ a.purchased = true) →
    bandcamp_refresh_purchased_aux p s c = some (s, c) := by
  induction p with
  | nil => intro s c _; rfl
  | cons url0 rest ih =>
    intro s c hall
    simp only [bandcamp_refresh_purchased_aux]
    cases hidx : lookup url0 s.bandcamp_url_to_album_key with
    | none =>
      exact ih s c fun url hm => hall url (List.mem_cons_of_mem _ hm)
    | some key =>
      obtain ⟨a, ha, hpu⟩ := hall url0 (List.mem_cons_self _ _) key hidx
      simp only [ha, hpu, if_true]
      exact ih s c fun url hm => hall url (List.mem_cons_of_mem _ hm)

theorem refresh_aux_filter (p : List String) :
    ∀ (s : State) (c : Nat),
    bandcamp_refresh_purchased_aux
      (p.filter (fun url => (lookup url s.bandcamp_url_to_album_key).isSome)) s c =
    bandcamp_refresh_purchased_aux p s c := by
  induction p with
  | nil => intro s c; rfl
  | cons url0 rest ih =>
    intro s c
    cases hidx : lookup url0 s.bandcamp_url_to_album_key with
    | none =>
      rw [List.filter_cons_of_neg (by simp [hidx])]
      rw [ih s c]
      simp only [bandcamp_refresh_purchased_aux, hidx]
    | some key =>
      rw [List.filter_cons_of_pos (by simp [hidx])]
      simp only [bandcamp_refresh_purchased_aux, hidx]
      cases halb : lookup key s.albums with
      | none => simp only [halb]
      | some album =>
        simp only [halb]
        cases hp : album.purchased with
        | true =>
          simp only [hp, if_true]
          exact ih s c
        | false =>
          simp only [hp, Bool.false_eq_true, if_false]
          exact ih { s with albums := dictInsert key (purchasedUpd album) s.albums } (c + 1)

/-! ## Playlist Importer lemmas -/

theorem register_track_index {s : State} {c : Nat} {t : Track} {s' : State} {c' : Nat}
    (h : register_track s c t = some (s', c')) :
    s'.bandcamp_url_to_album_key = s.bandcamp_url_to_album_key := by
  simp only [register_track] at h
  cases hk : lookup (t.album_name ++ ":" ++ t.album_id) s.albums with
  | some a =>
    simp only [hk, Option.some.injEq, Prod.mk.injEq] at h
    obtain ⟨rfl, rfl⟩ := h
    rfl
  | none =>
    simp only [hk] at h
    cases hart : t.artists with
    | nil => simp only [hart] at h; cases h
    | cons a0 as =>
      simp only [hart, Option.some.injEq, Prod.mk.injEq] at h
      obtain ⟨rfl, rfl⟩ := h
      rfl

theorem register_track_preserves {s : State} {c : Nat} {t : Track} {s' : State} {c' : Nat}
    (h : register_track s c t = some (s', c')) {k : String} {a : Album}
    (hka : lookup k s.albums = some a) : lookup k s'.albums = some a := by
  simp only [register_track] at h
  cases hk : lookup (t.album_name ++ ":" ++ t.album_id) s.albums with
  | some b =>
    simp only [hk, Option.some.injEq, Prod.mk.injEq] at h
    obtain ⟨rfl, rfl⟩ := h
    exact hka
  | none =>
    simp only [hk] at h
    cases hart : t.artists with
    | nil => simp only [hart] at h; cases h
    | cons a0 as =>
      simp only [hart, Option.some.injEq, Prod.mk.injEq] at h
      obtain ⟨rfl, rfl⟩ := h
      have hne : k ≠ t.album_name ++ ":" ++ t.album_id := by
        rintro rfl
        rw [hka] at hk
        cases hk
      simpa [lookup_dictInsert_ne hne] using hka

theorem register_aux_preserves (ts : List Track) :
    ∀ (s : State) (c : Nat) (s' : State) (c' : Nat),
    register_playlist_aux ts s c = some (s', c') →
    ∀ k a, lookup k s.albums = some a → lookup k s'.albums = some a := by
  induction ts with
  | nil =>
    intro s c s' c' h k a hka
    simp only [register_playlist_aux, Option.some.injEq, Prod.mk.injEq] at h
    obtain ⟨rfl, rfl⟩ := h
    exact hka
  | cons t ts ih =>
    intro s c s' c' h k a hka
    simp only [register_playlist_aux] at h
    cases ht : register_track s c t with
    | none => rw [ht] at h; cases h
    | some sc =>
      obtain ⟨s1, c1⟩ := sc
      rw [ht] at h
      exact ih s1 c1 s' c' h k a (register_track_preserves ht hka)

theorem register_aux_index (ts : List Track) :
    ∀ (s : State) (c : Nat) (s' : State) (c' : Nat),
    register_playlist_aux ts s c = some (s', c') →
    s'.bandcamp_url_to_album_key = s.bandcamp_url_to_album_key := by
  induction ts with
  | nil =>
    intro s c s' c' h
    simp only [register_playlist_aux, Option.some.injEq, Prod.mk.injEq] at h
    obtain ⟨rfl, rfl⟩ := h
    rfl
  | cons t ts ih =>
    intro s c s' c' h
    simp only [register_playlist_aux] at h
    cases ht : register_track s c t with
    | none => rw [ht] at h; cases h
    | some sc =>
      obtain ⟨s1, c1⟩ := sc
      rw [ht] at h
      exact (ih s1 c1 s' c' h).trans (register_track_index ht)

theorem register_track_inv {s : State} {c : Nat} {t : Track} {s' : State} {c' : Nat}
    (hinv : Inv s) (h : register_track s c t = some (s', c')) : Inv s' := by
  obtain ⟨hnd, hkey, hrev, hflag⟩ := hinv
  simp only [register_track] at h
  cases hk : lookup (t.album_name ++ ":" ++ t.album_id) s.albums with
  | some b =>
    simp only [hk, Option.some.injEq, Prod.mk.injEq] at h
    obtain ⟨rfl, rfl⟩ := h
    exact ⟨hnd, hkey, hrev, hflag⟩
  | none =>
    simp only [hk] at h
    cases hart : t.artists with
    | nil => simp only [hart] at h; cases h
    | cons a0 as =>
      simp only [hart, Option.some.injEq, Prod.mk.injEq] at h
      obtain ⟨rfl, rfl⟩ := h
      refine ⟨nodup_map_fst_dictInsert _ _ hnd, ?_, ?_, ?_⟩
      · intro k a hka
        have hka' : lookup k (dictInsert (t.album_name ++ ":" ++ t.album_id)
            (new_album_record t a0) s.albums) = some a := hka
        by_cases hkk : k = t.album_name ++ ":" ++ t.album_id
        · subst hkk
          rw [lookup_dictInsert_self] at hka'
          injection hka' with hka'
          rw [← hka']
          rfl
        · rw [lookup_dictInsert_ne hkk] at hka'
          exact hkey k a hka'
      · intro url key hurl
        have hurl' : lookup url s.bandcamp_url_to_album_key = some key := hurl
        obtain ⟨a, ha, hau, has⟩ := hrev url key hurl'
        have hne : key ≠ t.album_name ++ ":" ++ t.album_id := by
          rintro rfl
          rw [ha] at hk
          cases hk
        refine ⟨a, ?_, hau, has⟩
        show lookup key (dictInsert (t.album_name ++ ":" ++ t.album_id)
            (new_album_record t a0) s.albums) = some a
        rw [lookup_dictInsert_ne hne]
        exact ha
      · intro k a hka hsr
        have hka' : lookup k (dictInsert (t.album_name ++ ":" ++ t.album_id)
            (new_album_record t a0) s.albums) = some a := hka
        by_cases hkk : k = t.album_name ++ ":" ++ t.album_id
        · subst hkk
          rw [lookup_dictInsert_self] at hka'
          injection hka' with hka'
          rw [← hka']
          exact ⟨rfl, rfl⟩
        · rw [lookup_dictInsert_ne hkk] at hka'
          exact hflag k a hka' hsr

theorem register_aux_inv (ts : List Track) :
    ∀ (s : State) (c : Nat) (s' : State) (c' : Nat),
    Inv s → register_playlist_aux ts s c = some (s', c') → Inv s' := by
  induction ts with
  | nil =>
    intro s c s' c' hinv h
    simp only [register_playlist_aux, Option.some.injEq, Prod.mk.injEq] at h
    obtain ⟨rfl, rfl⟩ := h
    exact hinv
  | cons t ts ih =>
    intro s c s' c' hinv h
    simp only [register_playlist_aux] at h
    cases ht : register_track s c t with
    | none => rw [ht] at h; cases h
    | some sc =>
      obtain ⟨s1, c1⟩ := sc
      rw [ht] at h
      exact ih s1 c1 s' c' (register_track_inv hinv ht) h

/-! ## Marketplace Resolver lemmas -/

theorem resolveEntry_of_searched {oracle : String → String → String} {a : Album}
    (h : a.bandcamp_url_searched = true) : resolveEntry oracle a = a := by
  unfold resolveEntry
  rw [if_pos h]

theorem resolveEntry_searched (oracle : String → String → String) (a : Album) :
    (resolveEntry oracle a).bandcamp_url_searched = true := by
  cases h : a.bandcamp_url_searched with
  | true => rw [resolveEntry_of_searched h]; exact h
  | false =>
    unfold resolveEntry
    rw [if_neg (by rw [h]; exact Bool.false_ne_true)]
    by_cases h2 : oracle (a.artists.headD "") a.name = ""
    · rw [if_pos h2]
    · rw [if_neg h2]

theorem resolveEntry_key (oracle : String → String → String) (a : Album) :
    (resolveEntry oracle a).key = a.key := by
  cases h : a.bandcamp_url_searched with
  | true => rw [resolveEntry_of_searched h]
  | false =>
    unfold resolveEntry
    rw [if_neg (by rw [h]; exact Bool.false_ne_true)]
    by_cases h2 : oracle (a.artists.headD "") a.name = ""
    · rw [if_pos h2]
    · rw [if_neg h2]

theorem resolveEntry_zero_result {oracle : String → String → String} {a : Album}
    (hs : a.bandcamp_url_searched = false)
    (h0 : oracle (a.artists.headD "") a.name = "") :
    resolveEntry oracle a = { a with bandcamp_url_searched := true } := by
  unfold resolveEntry
  rw [if_neg (by rw [hs]; exact Bool.false_ne_true), if_pos h0]

theorem map_fst_entries {α β : Type} (f : α → β) (l : List (String × α)) :
    (l.map (fun p => (p.1, f p.2))).map Prod.fst = l.map Prod.fst := by
  induction l <;> simp_all

theorem resolve_aux_char (oracle : String → String → String)
    (albums : List (String × Album)) :
    ∀ (index : List (String × String)) (albums' : List (String × Album))
      (index' : List (String × String)) (queried : List String),
    resolve_pass_aux oracle albums index = some (albums', index', queried) →
    albums' = albums.map (fun p => (p.1, resolveEntry oracle p.2)) ∧
    queried = (albums.filter (fun p => !p.2.bandcamp_url_searched)).map Prod.fst ∧
    ∀ url key, lookup url index' = some key →
      lookup url index = some key ∨
      ∃ k a, (k, a) ∈ albums ∧ a.bandcamp_url_searched = false ∧
        oracle (a.artists.headD "") a.name = url ∧ url ≠ "" ∧ key = a.key := by
  induction albums with
  | nil =>
    intro index albums' index' queried h
    simp only [resolve_pass_aux, Option.some.injEq, Prod.mk.injEq] at h
    obtain ⟨rfl, rfl, rfl⟩ := h
    exact ⟨rfl, rfl, fun url key hl => Or.inl hl⟩
  | cons p rest ih =>
    obtain ⟨k, a⟩ := p
    intro index albums' index' queried h
    simp only [resolve_pass_aux] at h
    cases hsr : a.bandcamp_url_searched with
    | true =>
      simp only [hsr, if_true] at h
      cases hrec : resolve_pass_aux oracle rest index with
      | none => rw [hrec] at h; cases h
      | some r =>
        obtain ⟨rest', index'0, queried0⟩ := r
        rw [hrec] at h
        simp only [Option.some.injEq, Prod.mk.injEq] at h
        obtain ⟨rfl, rfl, rfl⟩ := h
        obtain ⟨hmap, hq, hidxc⟩ := ih index rest' index'0 queried0 hrec
        refine ⟨?_, ?_, ?_⟩
        · rw [List.map_cons, resolveEntry_of_searched hsr, ← hmap]
        · rw [List.filter_cons_of_neg (by simp [hsr])]
          exact hq
        · intro url key hl
          rcases hidxc url key hl with hold | ⟨k0, a0, hmem, h1, h2, h3, h4⟩
          · exact Or.inl hold
          · exact Or.inr ⟨k0, a0, List.mem_cons_of_mem _ hmem, h1, h2, h3, h4⟩
    | false =>
      simp only [hsr, Bool.false_eq_true, if_false] at h
      cases hart : a.artists with
      | nil => simp only [hart] at h; cases h
      | cons a0 as =>
        simp only [hart] at h
        cases hrec : resolve_pass_aux oracle rest (resolveIndexUpd oracle a index) with
        | none => rw [hrec] at h; cases h
        | some r =>
          obtain ⟨rest', index'0, queried0⟩ := r
          rw [hrec] at h
          simp only [Option.some.injEq, Prod.mk.injEq] at h
          obtain ⟨rfl, rfl, rfl⟩ := h
          obtain ⟨hmap, hq, hidxc⟩ :=
            ih (resolveIndexUpd oracle a index) rest' index'0 queried0 hrec
          refine ⟨?_, ?_, ?_⟩
          · rw [List.map_cons, ← hmap]
          · rw [List.filter_cons_of_pos (by simp [hsr])]
            rw [List.map_cons, hq]
          · intro url key hl
            rcases hidxc url key hl with hold | ⟨k0, b, hmem, h1, h2, h3, h4⟩
            · by_cases hurl : oracle (a.artists.headD "") a.name = ""
              · rw [resolveIndexUpd, if_pos hurl] at hold
                exact Or.inl hold
              · rw [resolveIndexUpd] at hold
                simp only [if_neg hurl] at hold
                by_cases hu : url = oracle (a.artists.headD "") a.name
                · subst hu
                  rw [lookup_dictInsert_self] at hold
                  injection hold with hold
                  exact Or.inr
                    ⟨k, a, List.mem_cons_self _ _, hsr, rfl, hurl, hold.symm⟩
                · rw [lookup_dictInsert_ne hu] at hold
                  exact Or.inl hold
            · exact Or.inr ⟨k0, b, List.mem_cons_of_mem _ hmem, h1, h2, h3, h4⟩

theorem resolve_pass_inv {oracle : String → String → String} {s s' : State}
    {queried : List String} (hinv : Inv s)
    (h : resolve_pass oracle s = some (s', queried)) : Inv s' := by
  obtain ⟨hnd, hkey, hrev, hflag⟩ := hinv
  simp only [resolve_pass] at h
  cases hrec : resolve_pass_aux oracle s.albums s.bandcamp_url_to_album_key with
  | none => rw [hrec] at h; cases h
  | some r =>
    obtain ⟨albums', index', queried0⟩ := r
    rw [hrec] at h
    simp only [Option.some.injEq, Prod.mk.injEq] at h
    obtain ⟨rfl, rfl⟩ := h
    obtain ⟨hmap, hq, hidxc⟩ :=
      resolve_aux_char oracle s.albums s.bandcamp_url_to_album_key albums' index' queried0 hrec
    refine ⟨?_, ?_, ?_, ?_⟩
    · show (albums'.map Prod.fst).Nodup
      rw [hmap, map_fst_entries]
      exact hnd
    · intro k a hka
      have hka' : lookup k albums' = some a := hka
      rw [hmap, lookup_map] at hka'
      cases hl : lookup k s.albums with
      | none => rw [hl] at hka'; cases hka'
      | some a1 =>
        rw [hl] at hka'
        injection hka' with hka'
        rw [← hka', resolveEntry_key]
        exact hkey k a1 hl
    · intro url key hurl
      have hurl' : lookup url index' = some key := hurl
      rcases hidxc url key hurl' with hold | ⟨k0, b, hmem, hbs, hbo, hbne, rfl⟩
      · obtain ⟨a1, ha1, hau, has⟩ := hrev url key hold
        refine ⟨a1, ?_, hau, has⟩
        show lookup key albums' = some a1
        rw [hmap, lookup_map, ha1, Option.map_some']
        rw [resolveEntry_of_searched has]
      · have hb : lookup k0 s.albums = some b := lookup_eq_some_of_mem_nodup hnd hmem
        have hbk : b.key = k0 := hkey k0 b hb
        refine ⟨resolveEntry oracle b, ?_, ?_, resolveEntry_searched oracle b⟩
        · show lookup b.key albums' = some (resolveEntry oracle b)
          rw [hbk, hmap, lookup_map, hb, Option.map_some']
        · show (resolveEntry oracle b).bandcamp_url = url
          unfold resolveEntry
          rw [if_neg (by rw [hbs]; exact Bool.false_ne_true), hbo, if_neg hbne]
    · intro k a hka hsrf
      have hka' : lookup k albums' = some a := hka
      rw [hmap, lookup_map] at hka'
      cases hl : lookup k s.albums with
      | none => rw [hl] at hka'; cases hka'
      | some a1 =>
        rw [hl] at hka'
        injection hka' with hka'
        rw [← hka', resolveEntry_searched] at hsrf
        cases hsrf

/-! ## Invariant preservation and reachability -/

theorem refresh_aux_inv {p : List String} {s : State} {c : Nat} {s' : State} {n : Nat}
    (hinv : Inv s) (h : bandcamp_refresh_purchased_aux p s c = some (s', n)) : Inv s' := by
  obtain ⟨hnd, hkey, hrev, hflag⟩ := hinv
  obtain ⟨hidx, hkeys, hlook⟩ := refresh_aux_frame p s c s' n h
  refine ⟨?_, ?_, ?_, ?_⟩
  · show (s'.albums.map Prod.fst).Nodup
    rw [hkeys]
    exact hnd
  · intro k a hka
    rcases hlook k with heq | ⟨a1, ha1, _, ha1', _⟩
    · rw [heq] at hka
      exact hkey k a hka
    · rw [ha1'] at hka
      injection hka with hka
      rw [← hka]
      exact hkey k a1 ha1
  · intro url key hurl
    rw [hidx] at hurl
    obtain ⟨a1, ha1, hau, has⟩ := hrev url key hurl
    rcases hlook key with heq | ⟨a2, ha2, _, ha2', _⟩
    · exact ⟨a1, heq ▸ ha1, hau, has⟩
    · rw [ha1] at ha2
      injection ha2 with ha2
      subst ha2
      exact ⟨purchasedUpd a1, ha2', hau, has⟩
  · intro k a hka hsrf
    rcases hlook k with heq | ⟨a2, ha2, _, ha2', url2, hurl2⟩
    · rw [heq] at hka
      exact hflag k a hka hsrf
    · obtain ⟨a3, ha3, _, has3⟩ := hrev url2 k hurl2
      rw [ha2] at ha3
      injection ha3 with ha3
      subst ha3
      rw [ha2'] at hka
      injection hka with hka
      rw [← hka] at hsrf
      have : a2.bandcamp_url_searched = false := hsrf
      rw [has3] at this
      cases this

theorem Inv_initial : Inv initial_state := by
  refine ⟨List.nodup_nil, ?_, ?_, ?_⟩
  · intro k a h
    simp [lookup, initial_state] at h
  · intro url key h
    simp [lookup, initial_state] at h
  · intro k a h
    simp [lookup, initial_state] at h

theorem Inv_reachable {s : State} (h : Reachable s) : Inv s := by
  induction h with
  | init => exact Inv_initial
  | importStep s s' playlist n _ hreg ih => exact register_aux_inv playlist s 0 s' n ih hreg
  | resolveStep s s' oracle q _ hres ih => exact resolve_pass_inv ih hres
  | refreshStep s s' p n _ href ih => exact refresh_aux_inv ih href

/-! ## URL parsing lemmas -/

theorem splitAtFirst_of_not_mem {c : Char} {l : List Char} (h : c ∉ l) :
    splitAtFirst c l = none := by
  induction l with
  | nil => rfl
  | cons x xs ih =>
    simp only [List.mem_cons, not_or] at h
    have hx : ¬(x = c) := fun he => h.1 he.symm
    simp [splitAtFirst, hx, ih h.2]

theorem splitAtFirst_append_cons (c : Char) (a b : List Char) (h : c ∉ a) :
    splitAtFirst c (a ++ c :: b) = some (a, b) := by
  induction a with
  | nil => simp [splitAtFirst]
  | cons x xs ih =>
    simp only [List.mem_cons, not_or] at h
    have hx : ¬(x = c) := fun he => h.1 he.symm
    simp [splitAtFirst, hx, ih h.2]

theorem breakAt_of_not_mem {c : Char} {l : List Char} (h : c ∉ l) :
    breakAt c l = (l, []) := by
  simp [breakAt, splitAtFirst_of_not_mem h]

theorem breakAt_cons_self (c : Char) (t : List Char) : breakAt c (c :: t) = ([], t) := by
  simp [breakAt, splitAtFirst]

theorem breakAt_cons_ne {c x : Char} (h : ¬(x = c)) (t : List Char) :
    breakAt c (x :: t) = (x :: (breakAt c t).1, (breakAt c t).2) := by
  simp only [breakAt, splitAtFirst, if_neg h]
  cases hs : splitAtFirst c t with
  | none => simp
  | some p =>
    obtain ⟨p1, p2⟩ := p
    simp

theorem breakAt_append_not_mem (c : Char) (a b : List Char) (h : c ∉ a) :
    breakAt c (a ++ b) = (a ++ (breakAt c b).1, (breakAt c b).2) := by
  induction a with
  | nil => simp
  | cons x xs ih =>
    simp only [List.mem_cons, not_or] at h
    have hx : ¬(x = c) := fun he => h.1 he.symm
    rw [List.cons_append, breakAt_cons_ne hx, ih h.2]
    simp

theorem breakAt_append_cons_self (c : Char) (a b : List Char) (h : c ∉ a) :
    breakAt c (a ++ c :: b) = (a, b) := by
  simp [breakAt, splitAtFirst_append_cons c a b h]

theorem takeWhile_append_of_all {α : Type} (p : α → Bool) {a : List α}
    (h : ∀ x ∈ a, p x = true) (b : List α) :
    (a ++ b).takeWhile p = a ++ b.takeWhile p := by
  induction a with
  | nil => simp
  | cons x xs ih =>
    rw [List.cons_append, List.takeWhile_cons, if_pos (h x (List.mem_cons_self _ _)),
      ih fun y hy => h y (List.mem_cons_of_mem _ hy), List.cons_append]

theorem dropWhile_append_of_all {α : Type} (p : α → Bool) {a : List α}
    (h : ∀ x ∈ a, p x = true) (b : List α) :
    (a ++ b).dropWhile p = b.dropWhile p := by
  induction a with
  | nil => simp
  | cons x xs ih =>
    rw [List.cons_append, List.dropWhile_cons, if_pos (h x (List.mem_cons_self _ _)),
      ih fun y hy => h y (List.mem_cons_of_mem _ hy)]

theorem colon_not_mem_of_all_schemeChar {l : List Char} (h : l.all isSchemeChar = true) :
    ':' ∉ l := by
  intro hm
  have hc : isSchemeChar ':' = true := List.all_eq_true.mp h _ hm
  exact absurd hc (by decide)

theorem scheme_split_append (sch rest : List Char) (h1 : sch ≠ [])
    (h2 : (sch.headD ' ').isAlpha = true) (h3 : sch.all isSchemeChar = true) :
    scheme_split (sch ++ ':' :: rest) = (sch.map Char.toLower, rest) := by
  have hempty : sch.isEmpty = false := by
    cases sch with
    | nil => exact absurd rfl h1
    | cons x xs => rfl
  unfold scheme_split
  rw [splitAtFirst_append_cons ':' sch rest (colon_not_mem_of_all_schemeChar h3)]
  dsimp only
  rw [if_pos (by rw [hempty, h2, h3]; rfl)]

theorem netloc_split_cons_delim (host : List Char)
    (h : ∀ x ∈ host, isNetlocDelim x = false) (y : Char) (hy : isNetlocDelim y = true)
    (rest : List Char) :
    netloc_split ('/' :: '/' :: (host ++ y :: rest)) = (host, y :: rest) := by
  have hall : ∀ x ∈ host, (fun c => !isNetlocDelim c) x = true := by
    intro x hx
    simp [h x hx]
  unfold netloc_split
  dsimp only
  rw [if_pos ⟨rfl, rfl⟩]
  rw [takeWhile_append_of_all _ hall, dropWhile_append_of_all _ hall]
  rw [List.takeWhile_cons, List.dropWhile_cons]
  simp [hy]

theorem urlparse_components (scheme host path query : String)
    (hs1 : scheme.data ≠ [])
    (hs2 : (scheme.data.headD ' ').isAlpha = true)
    (hs3 : scheme.data.all isSchemeChar = true)
    (hh : ∀ x ∈ host.data, isNetlocDelim x = false)
    (hp1 : path.data = [] ∨ ∃ ps, path.data = '/' :: ps)
    (hp2 : '?' ∉ path.data) (hp3 : '#' ∉ path.data) :
    (urlparse (scheme ++ "://" ++ host ++ path ++ "?" ++ query)).netloc = host ∧
    (urlparse (scheme ++ "://" ++ host ++ path ++ "?" ++ query)).path = path := by
  have hdata : (scheme ++ "://" ++ host ++ path ++ "?" ++ query).data =
      scheme.data ++ ':' :: ('/' :: '/' :: (host.data ++ (path.data ++ '?' :: query.data))) := by
    simp only [String.data_append]
    simp [List.append_assoc]
  have hsch := scheme_split_append scheme.data
    ('/' :: '/' :: (host.data ++ (path.data ++ '?' :: query.data))) hs1 hs2 hs3
  have hnet : netloc_split ('/' :: '/' :: (host.data ++ (path.data ++ '?' :: query.data))) =
      (host.data, path.data ++ '?' :: query.data) := by
    rcases hp1 with hnil | ⟨ps, hcons⟩
    · rw [hnil]
      simpa using netloc_split_cons_delim host.data hh '?' (by decide) query.data
    · rw [hcons]
      simpa [List.append_assoc] using
        netloc_split_cons_delim host.data hh '/' (by decide) (ps ++ '?' :: query.data)
  have hfrag : breakAt '#' (path.data ++ '?' :: query.data) =
      (path.data ++ '?' :: (breakAt '#' query.data).1, (breakAt '#' query.data).2) := by
    rw [breakAt_append_not_mem '#' path.data ('?' :: query.data) hp3,
      breakAt_cons_ne (show ¬('?' = '#') by decide)]
  have hpq : breakAt '?' (path.data ++ '?' :: (breakAt '#' query.data).1) =
      (path.data, (breakAt '#' query.data).1) :=
    breakAt_append_cons_self '?' path.data (breakAt '#' query.data).1 hp2
  constructor
  · show String.mk (netloc_split (scheme_split
      (scheme ++ "://" ++ host ++ path ++ "?" ++ query).data).2).1 = host
    rw [hdata, hsch]
    dsimp only
    rw [hnet]
  · show String.mk ((breakAt '?' (breakAt '#' (netloc_split (scheme_split
      (scheme ++ "://" ++ host ++ path ++ "?" ++ query).data).2).2).1).1) = path
    rw [hdata, hsch]
    dsimp only
    rw [hnet]
    dsimp only
    rw [hfrag]
    dsimp only
    rw [hpq]

/-! ## Further resolver helpers -/

theorem resolve_pass_lookup {oracle : String → String → String} {s s' : State}
    {queried : List String} (hres : resolve_pass oracle s = some (s', queried)) :
    s'.albums = s.albums.map (fun p => (p.1, resolveEntry oracle p.2)) ∧
    queried = (s.albums.filter (fun p => !p.2.bandcamp_url_searched)).map Prod.fst := by
  simp only [resolve_pass] at hres
  cases hrec : resolve_pass_aux oracle s.albums s.bandcamp_url_to_album_key with
  | none => rw [hrec] at hres; cases hres
  | some r =>
    obtain ⟨albums', index', queried0⟩ := r
    rw [hrec] at hres
    simp only [Option.some.injEq, Prod.mk.injEq] at hres
    obtain ⟨rfl, rfl⟩ := hres
    obtain ⟨hmap, hq, _⟩ :=
      resolve_aux_char oracle s.albums s.bandcamp_url_to_album_key albums' index' queried0 hrec
    exact ⟨hmap, hq⟩

theorem not_mem_queried_of_searched {albums : List (String × Album)}
    (hnd : (albums.map Prod.fst).Nodup) {k : String} {a : Album}
    (ha : lookup k albums = some a) (hs : a.bandcamp_url_searched = true) :
    k ∉ (albums.filter (fun p => !p.2.bandcamp_url_searched)).map Prod.fst := by
  intro hmem
  obtain ⟨p, hpf, hpk⟩ := List.mem_map.mp hmem
  obtain ⟨k0, b⟩ := p
  obtain ⟨hpmem, hpsr⟩ := List.mem_filter.mp hpf
  have hk0 : k0 = k := hpk
  subst hk0
  have hb : lookup k0 albums = some b := lookup_eq_some_of_mem_nodup hnd hpmem
  rw [ha] at hb
  injection hb with hb
  rw [← hb, hs] at hpsr
  cases hpsr

/-! ## Claim theorems -/

/-- Claim C1: running the Purchase Reconciler a second time with the same
purchase list and the state produced by the first run makes no change to the
state and reports a newly-purchased count of zero. -/
theorem reconciler_idempotent (purchases : List String) (s s' : State) (n : Nat)
    (h : bandcamp_refresh_purchased purchases s = some (s', n)) :
    bandcamp_refresh_purchased purchases s' = some (s', 0) :=
  refresh_aux_noop purchases s' 0 (refresh_aux_all_purchased purchases s 0 s' n h)

theorem reconciler_idempotent_witness :
    bandcamp_refresh_purchased [exUrl, "https://other"] exState3 = some (exState3, 0) :=
  reconciler_idempotent [exUrl, "https://other"] exState2 exState3 1 (by decide)

/-- Claim C2: in every reachable state, for every pair (url, key) in the
reverse index `bandcamp_url_to_album_key` the album `albums[key]` exists and
its `bandcamp_url` field equals url; the invariant is preserved by import,
resolve and reconcile, the three steps generating `Reachable`. -/
theorem reverse_index_consistent (s : State) (h : Reachable s) :
    ∀ url key, lookup url s.bandcamp_url_to_album_key = some key →
      ∃ a, lookup key s.albums = some a ∧ a.bandcamp_url = url := by
  intro url key hk
  obtain ⟨a, ha, hau, _⟩ := (Inv_reachable h).2.2.1 url key hk
  exact ⟨a, ha, hau⟩

theorem reverse_index_consistent_witness :
    ∃ a, lookup "X:1" exState2.albums = some a ∧ a.bandcamp_url = exUrl :=
  reverse_index_consistent exState2
    (Reachable.resolveStep exState1 exState2 exOracle ["X:1"]
      (Reachable.importStep initial_state exState1 [exTrack] 1 Reachable.init (by decide))
      (by decide))
    exUrl "X:1" (by decide)

/-- Claim C3: in every reachable state, an album record with
`bandcamp_url_searched = false` also has `bandcamp_url_found = false` and
`purchased = false`; the implication holds at creation and is preserved by
the Marketplace Resolver and the Purchase Reconciler. -/
theorem unsearched_not_found_not_purchased (s : State) (h : Reachable s) :
    ∀ k a, lookup k s.albums = some a → a.bandcamp_url_searched = false →
      a.bandcamp_url_found = false ∧ a.purchased = false :=
  fun k a hka hsr => (Inv_reachable h).2.2.2 k a hka hsr

theorem unsearched_not_found_not_purchased_witness :
    exAlbumNew.bandcamp_url_found = false ∧ exAlbumNew.purchased = false :=
  unsearched_not_found_not_purchased exState1
    (Reachable.importStep initial_state exState1 [exTrack] 1 Reachable.init (by decide))
    "X:1" exAlbumNew (by decide) (by decide)

/-- Claim C4: computing stats over a state containing zero albums is the
spot where the source divides `purchased_count` by `album_count = 0` and
raises `ZeroDivisionError`; the model of `print_stats` returns `none`
(a crash) on every state with an empty albums mapping, against the claim
that it completes gracefully. -/
theorem print_stats_zero_albums (s : State) (h : s.albums = []) :
    print_stats s = none := by
  simp [print_stats, h]

theorem print_stats_zero_albums_witness : print_stats initial_state = none :=
  print_stats_zero_albums initial_state rfl

/-- Claim C5 counterexample: for a result link with scheme `http` the stored
URL is not the link normalized keeping its scheme: the source always writes
the literal `https://` prefix, so the stored URL differs from
`claimed_normalized_url`, the normalization the claim describes. -/
theorem search_url_scheme_not_kept :
    search_bandcamp_album_url ["http://artist.bandcamp.com/album/x?from=search"] ≠
      claimed_normalized_url "http://artist.bandcamp.com/album/x?from=search" := by
  decide

/-- Claim C5 (amended): for every search that yields at least one result,
the stored URL is built from the first result link by keeping host and path
and stripping the query string, with the scheme replaced by the fixed
literal `https`; for an https link this coincides with keeping scheme, host
and path. -/
theorem search_strips_query (scheme host path query : String) (rest : List String)
    (hs1 : scheme.data ≠ [])
    (hs2 : (scheme.data.headD ' ').isAlpha = true)
    (hs3 : scheme.data.all isSchemeChar = true)
    (hh : ∀ x ∈ host.data, isNetlocDelim x = false)
    (hp1 : path.data = [] ∨ ∃ ps, path.data = '/' :: ps)
    (hp2 : '?' ∉ path.data) (hp3 : '#' ∉ path.data) :
    search_bandcamp_album_url ((scheme ++ "://" ++ host ++ path ++ "?" ++ query) :: rest) =
      "https://" ++ host ++ path := by
  obtain ⟨hn, hp⟩ := urlparse_components scheme host path query hs1 hs2 hs3 hh hp1 hp2 hp3
  show "https://" ++
    (urlparse (scheme ++ "://" ++ host ++ path ++ "?" ++ query)).netloc ++
    (urlparse (scheme ++ "://" ++ host ++ path ++ "?" ++ query)).path = "https://" ++ host ++ path
  rw [hn, hp]

theorem search_strips_query_witness :
    search_bandcamp_album_url
      (("https" ++ "://" ++ "artist.bandcamp.com" ++ "/album/x" ++ "?" ++ "from=search") :: []) =
      "https://" ++ "artist.bandcamp.com" ++ "/album/x" :=
  search_strips_query "https" "artist.bandcamp.com" "/album/x" "from=search" []
    (by decide) (by decide) (by decide) (by decide)
    (Or.inr ⟨("album/x").data, by decide⟩) (by decide) (by decide)

/-- Claim C6: a searched album is never re-queried and its record is left
unchanged by any resolver pass, and a zero-result search is terminal: the
record gets `bandcamp_url_searched = true` while keeping
`bandcamp_url_found = false` and an empty `bandcamp_url`, and any later
pass neither changes it nor queries it again. -/
theorem resolver_never_requeries (oracle oracle2 : String → String → String)
    (s s' : State) (queried : List String)
    (hnd : (s.albums.map Prod.fst).Nodup)
    (hres : resolve_pass oracle s = some (s', queried))
    (k : String) (a : Album) (ha : lookup k s.albums = some a) :
    (a.bandcamp_url_searched = true →
      lookup k s'.albums = some a ∧ k ∉ queried) ∧
    (a.bandcamp_url_searched = false → a.bandcamp_url_found = false →
      a.bandcamp_url = "" → oracle (a.artists.headD "") a.name = "" →
      lookup k s'.albums = some { a with bandcamp_url_searched := true } ∧
      ∀ s'' queried2, resolve_pass oracle2 s' = some (s'', queried2) →
        lookup k s''.albums = some { a with bandcamp_url_searched := true } ∧
        k ∉ queried2) := by
  obtain ⟨hmap, hq⟩ := resolve_pass_lookup hres
  have hlk : lookup k s'.albums = some (resolveEntry oracle a) := by
    rw [hmap, lookup_map, ha, Option.map_some']
  constructor
  · intro hs
    refine ⟨?_, ?_⟩
    · rw [hlk, resolveEntry_of_searched hs]
    · rw [hq]
      exact not_mem_queried_of_searched hnd ha hs
  · intro hs _ _ h0
    have hupd : lookup k s'.albums = some { a with bandcamp_url_searched := true } := by
      rw [hlk, resolveEntry_zero_result hs h0]
    refine ⟨hupd, ?_⟩
    intro s'' queried2 hres2
    obtain ⟨hmap2, hq2⟩ := resolve_pass_lookup hres2
    have hnd' : (s'.albums.map Prod.fst).Nodup := by
      rw [hmap, map_fst_entries]
      exact hnd
    refine ⟨?_, ?_⟩
    · rw [hmap2, lookup_map, hupd, Option.map_some', resolveEntry_of_searched rfl]
    · rw [hq2]
      exact not_mem_queried_of_searched hnd' hupd rfl

theorem resolver_never_requeries_witness :
    (exAlbumResolved.bandcamp_url_searched = true →
      lookup "X:1" exState2.albums = some exAlbumResolved ∧ "X:1" ∉ ([] : List String)) ∧
    (exAlbumResolved.bandcamp_url_searched = false →
      exAlbumResolved.bandcamp_url_found = false → exAlbumResolved.bandcamp_url = "" →
      exOracleEmpty (exAlbumResolved.artists.headD "") exAlbumResolved.name = "" →
      lookup "X:1" exState2.albums =
        some { exAlbumResolved with bandcamp_url_searched := true } ∧
      ∀ s'' queried2, resolve_pass exOracleEmpty exState2 = some (s'', queried2) →
        lookup "X:1" s''.albums =
          some { exAlbumResolved with bandcamp_url_searched := true } ∧
        "X:1" ∉ queried2) :=
  resolver_never_requeries exOracleEmpty exOracleEmpty exState2 exState2 []
    (by decide) (by decide) "X:1" exAlbumResolved (by decide)

/-- Claim C7: a playlist track whose album key is absent from the store when
the importer reaches it gets a fresh record under the key
`name ++ ":" ++ id` with `purchased = false`, both search flags false,
empty `bandcamp_url`, and `bandcamp_search_term` equal to the first artist,
a space, and the album name; the record survives the rest of the import. -/
theorem importer_creates_album (s : State) (t : Track) (ts : List Track)
    (a0 : String) (rest : List String) (s' : State) (n : Nat)
    (hart : t.artists = a0 :: rest)
    (habs : lookup (t.album_name ++ ":" ++ t.album_id) s.albums = none)
    (hreg : register_playlist (t :: ts) s = some (s', n)) :
    lookup (t.album_name ++ ":" ++ t.album_id) s'.albums = some
      { key := t.album_name ++ ":" ++ t.album_id
        id := t.album_id
        name := t.album_name
        artists := t.artists
        purchased := false
        bandcamp_search_term := a0 ++ " " ++ t.album_name
        bandcamp_url_found := false
        bandcamp_url_searched := false
        bandcamp_url := "" } := by
  simp only [register_playlist, register_playlist_aux, register_track, habs, hart] at hreg
  have hstep : lookup (t.album_name ++ ":" ++ t.album_id)
      (dictInsert (t.album_name ++ ":" ++ t.album_id) (new_album_record t a0) s.albums) =
      some (new_album_record t a0) := lookup_dictInsert_self ..
  have hres := register_aux_preserves ts
    { s with albums :=
        dictInsert (t.album_name ++ ":" ++ t.album_id) (new_album_record t a0) s.albums }
    1 s' n hreg (t.album_name ++ ":" ++ t.album_id) (new_album_record t a0) hstep
  rw [hres]
  rw [show new_album_record t a0 =
    { key := t.album_name ++ ":" ++ t.album_id
      id := t.album_id
      name := t.album_name
      artists := t.artists
      purchased := false
      bandcamp_search_term := a0 ++ " " ++ t.album_name
      bandcamp_url_found := false
      bandcamp_url_searched := false
      bandcamp_url := "" } from rfl]

theorem importer_creates_album_witness :
    lookup "X:1" exState1.albums = some exAlbumNew := by
  have h := importer_creates_album initial_state exTrack [] "A" [] exState1 1 rfl rfl (by decide)
  exact h

/-- Claim C8: a missing required environment variable makes the credential
reading fail with a `KeyError` naming exactly that variable, before any
authentication request value exists; the error identifies the missing
configuration rather than surfacing later as an authentication failure. -/
theorem env_missing_fails_fast (env : String → Option String) :
    ((env "SPOTIFY_APP_ID" = none ∨ env "SPOTIFY_APP_SECRET" = none) →
      ∃ name, get_spotify_auth_token_request env = Except.error name ∧ env name = none) ∧
    ((env "BANDCAMP_USERNAME" = none ∨ env "BANDCAMP_TOKEN" = none) →
      ∃ name, get_bandcamp_purchases_request env = Except.error name ∧ env name = none) := by
  constructor
  · intro h
    cases hid : env "SPOTIFY_APP_ID" with
    | none =>
      exact ⟨"SPOTIFY_APP_ID",
        by simp [get_spotify_auth_token_request, getenv, hid, Except.bind], hid⟩
    | some v =>
      have hsec : env "SPOTIFY_APP_SECRET" = none := by
        rcases h with h | h
        · rw [h] at hid; cases hid
        · exact h
      exact ⟨"SPOTIFY_APP_SECRET",
        by simp [get_spotify_auth_token_request, getenv, hid, hsec, Except.bind], hsec⟩
  · intro h
    cases hus : env "BANDCAMP_USERNAME" with
    | none =>
      exact ⟨"BANDCAMP_USERNAME",
        by simp [get_bandcamp_purchases_request, getenv, hus, Except.bind], hus⟩
    | some v =>
      have htok : env "BANDCAMP_TOKEN" = none := by
        rcases h with h | h
        · rw [h] at hus; cases hus
        · exact h
      exact ⟨"BANDCAMP_TOKEN",
        by simp [get_bandcamp_purchases_request, getenv, hus, htok, Except.bind], htok⟩

theorem env_missing_fails_fast_witness :
    ∃ name, get_spotify_auth_token_request (fun _ => none) = Except.error name ∧
      (fun _ => none : String → Option String) name = none :=
  (env_missing_fails_fast (fun _ => none)).1 (Or.inl rfl)

/-- Claim C9: the Purchase Reconciler leaves the reverse index and the set
of album keys unchanged, changes at most the `purchased` field of album
records and only from false to true, and purchase URLs absent from the
reverse index have no effect: filtering them out of the purchase list gives
the same result. -/
theorem reconciler_frame (purchases : List String) (s s' : State) (n : Nat)
    (h : bandcamp_refresh_purchased purchases s = some (s', n)) :
    s'.bandcamp_url_to_album_key = s.bandcamp_url_to_album_key ∧
    s'.albums.map Prod.fst = s.albums.map Prod.fst ∧
    (∀ k, lookup k s'.albums = lookup k s.albums ∨
      ∃ a, lookup k s.albums = some a ∧ a.purchased = false ∧
        lookup k s'.albums = some (purchasedUpd a)) ∧
    bandcamp_refresh_purchased
      (purchases.filter (fun url => (lookup url s.bandcamp_url_to_album_key).isSome)) s =
      some (s', n) := by
  obtain ⟨h1, h2, h3⟩ := refresh_aux_frame purchases s 0 s' n h
  refine ⟨h1, h2, fun k => ?_, ?_⟩
  · rcases h3 k with hc | ⟨a, ha, hp, ha', _⟩
    · exact Or.inl hc
    · exact Or.inr ⟨a, ha, hp, ha'⟩
  · rw [bandcamp_refresh_purchased, refresh_aux_filter]
    exact h

theorem reconciler_frame_witness :
    exState3.bandcamp_url_to_album_key = exState2.bandcamp_url_to_album_key ∧
    exState3.albums.map Prod.fst = exState2.albums.map Prod.fst ∧
    (∀ k, lookup k exState3.albums = lookup k exState2.albums ∨
      ∃ a, lookup k exState2.albums = some a ∧ a.purchased = false ∧
        lookup k exState3.albums = some (purchasedUpd a)) ∧
    bandcamp_refresh_purchased
      ([exUrl, "https://other"].filter
        (fun url => (lookup url exState2.bandcamp_url_to_album_key).isSome)) exState2 =
      some (exState3, 1) :=
  reconciler_frame [exUrl, "https://other"] exState2 exState3 1 (by decide)

/-- Claim C10: a playlist track with an empty artist list and an album key
absent from the store makes the import abort (an IndexError reading the
first artist) before the record is inserted: the import phase and the whole
`pull_spotify_playlist` run produce no state. -/
theorem importer_requires_artist (s : State) (t : Track) (ts : List Track)
    (oracle : String → String → String) (purchases : List String)
    (hart : t.artists = [])
    (habs : lookup (t.album_name ++ ":" ++ t.album_id) s.albums = none) :
    register_playlist (t :: ts) s = none ∧
    pull_spotify_playlist oracle (t :: ts) purchases s = none := by
  have hreg : register_playlist (t :: ts) s = none := by
    simp only [register_playlist, register_playlist_aux, register_track, habs, hart]
  refine ⟨hreg, ?_⟩
  simp only [pull_spotify_playlist, hreg]

theorem importer_requires_artist_witness :
    register_playlist [exTrackNoArtist] initial_state = none ∧
    pull_spotify_playlist exOracle [exTrackNoArtist] [] initial_state = none :=
  importer_requires_artist initial_state exTrackNoArtist [] exOracle [] rfl rfl

end Spoticamper
